import Mathlib

/-!
Verification of the message formatter (src/format/format.ts).

The formatter receives normalized report messages from the upstream walker,
filters out ignored ones, sorts them by severity, truncates to `maxMessages`,
and renders either a codeframe view or a stylish (grouped-by-file) view,
followed by a truncation notice when messages were hidden.

Output is modelled as the ordered list of strings passed to
`process.stderr.write`; the ambient `colorette` toggle `colorOptions.enabled`
is modelled as an explicit boolean threaded in and out of `formatMessages`.
-/

inductive MessageSeverity
  | warn
  | error
  deriving DecidableEq, Repr

structure Pos where
  line : Nat
  col : Nat
  deriving DecidableEq, Repr

/-- The `source` object a location points into; the formatter reads only
`source.absoluteRef` (the absolute file path). -/
structure SourceObject where
  absoluteRef : String
  deriving DecidableEq, Repr

/-- A location as handed to the formatter (`LocationObject` from ../walk, which is
not under src/). The original is either raw/structural or already resolved to a
line-column range; resolution is delegated to the external `getLineColLocation`.
We model every location as carrying its resolved start and end positions,
together with the optional structural `pointer` string. -/
structure LocationObject where
  source : SourceObject
  pointer : Option String
  start : Pos
  «end» : Pos
  deriving DecidableEq, Repr

/-- Modelled from the spec: the external location normalizer `getLineColLocation`
(from ./codeframes, not under src/): "given any Location, returns a resolved
`{start:{line,col}, end:{line,col}}`; must be deterministic and side-effect-free".
Our `LocationObject` carries its resolved form, so normalization reads it back. -/
def getLineColLocation (location : LocationObject) : LocationObject :=
  location

/-- The `NormalizedReportMessage` (from ../walk, not under src/) extended with the
optional `ignored` flag, as consumed by `formatMessages`; fields are the ones
the formatter reads (spec §3 Diagnostic Message). -/
structure NormalizedReportMessage where
  severity : MessageSeverity
  message : String
  ruleId : String
  suggest : List String
  location : List LocationObject
  «from» : Option LocationObject := none
  ignored : Bool := false
  deriving DecidableEq, Repr

/-- Modelled from the spec: the `colorette` styling primitives are "terminal color
styling primitives ... applied to strings"; each wraps its argument in the
open/close ANSI codes when the color toggle is enabled and is the identity
otherwise.  The toggle (`colorOptions.enabled`) is passed explicitly. -/
def colorize (enabled : Bool) (openCode closeCode s : String) : String :=
  if enabled then openCode ++ s ++ closeCode else s

def gray (enabled : Bool) (s : String) : String :=
  colorize enabled "\x1b[90m" "\x1b[39m" s

def blue (enabled : Bool) (s : String) : String :=
  colorize enabled "\x1b[34m" "\x1b[39m" s

def red (enabled : Bool) (s : String) : String :=
  colorize enabled "\x1b[31m" "\x1b[39m" s

def yellow (enabled : Bool) (s : String) : String :=
  colorize enabled "\x1b[33m" "\x1b[39m" s

def bgRed (enabled : Bool) (s : String) : String :=
  colorize enabled "\x1b[41m" "\x1b[49m" s

def bgYellow (enabled : Bool) (s : String) : String :=
  colorize enabled "\x1b[43m" "\x1b[49m" s

def BG_COLORS (enabled : Bool) : MessageSeverity → String → String
  | .warn => bgYellow enabled
  | .error => bgRed enabled

def COLORS (enabled : Bool) : MessageSeverity → String → String
  | .warn => yellow enabled
  | .error => red enabled

def SEVERITY_NAMES : MessageSeverity → String
  | .warn => "Warning"
  | .error => "Error"

def MAX_SUGGEST : Nat := 5

/-- Source: `severity === 'error' ? 1 : 2`. -/
def severityToNumber (severity : MessageSeverity) : Nat :=
  if severity = .error then 1 else 2

inductive OutputFormat
  | codeframe
  | stylish
  deriving DecidableEq, Repr

/-- Modelled from the spec: node's `path.relative(cwd, file)`, out of scope
("working-directory resolution"); used only to relativize file paths.  Modelled
as stripping a leading `cwd ++ "/"` when present. -/
def pathRelative (cwd file : String) : String :=
  if file.take (cwd.length + 1) = cwd ++ "/" then file.drop (cwd.length + 1) else file

/-- Placeholder value for `location[0]` of an empty location list.  The spec
(§7) makes a non-empty `location` a caller-guaranteed precondition; theorems
that depend on the primary location carry that hypothesis. -/
def defaultLocation : LocationObject :=
  { source := { absoluteRef := "" }, pointer := none
    start := { line := 0, col := 0 }, «end» := { line := 0, col := 0 } }

/-- The template string `` `${start.line}:${start.col}` `` used both by
`shortFormatMessage` and the `locationPad` computation of `groupByFiles`. -/
def lineColString (start : Pos) : String :=
  toString start.line ++ ":" ++ toString start.col

def formatDidYouMean (message : NormalizedReportMessage) : String :=
  if message.suggest.length = 0 then ""
  else if message.suggest.length = 1 then
    "Did you mean: " ++ message.suggest.headD "" ++ " ?\n\n"
  else
    "Did you mean:\n  - " ++ String.intercalate "\n  - " (message.suggest.take MAX_SUGGEST) ++ "\n\n"

def formatFrom (colorEnabled : Bool) (cwd : String) (location : Option LocationObject) : String :=
  match location with
  | none => ""
  | some location =>
    let relativePath := pathRelative cwd location.source.absoluteRef
    let loc := getLineColLocation location
    let fileWithLoc := relativePath ++ ":" ++ toString loc.start.line ++ ":" ++ toString loc.start.col
    "referenced from " ++ blue colorEnabled fileWithLoc ++ "\n\n"

/-- The codeframe-mode renderer for one message.  `getCodeframe` is the external
source-excerpt extractor (./codeframes, not under src/), passed as a parameter;
`colorEnabled` is the color toggle `formatMessages` resolved and set. -/
def fullFormatMessage (getCodeframe : LocationObject → Bool → String) (cwd : String)
    (colorEnabled : Bool) (message : NormalizedReportMessage) (idx : Nat) : String :=
  let bgColor := BG_COLORS colorEnabled message.severity
  let location := message.location.headD defaultLocation
  let relativePath := pathRelative cwd location.source.absoluteRef
  let loc := getLineColLocation location
  let atPointer := match location.pointer with
    | some p => if p = "" then "" else gray colorEnabled ("at " ++ p)
    | none => ""
  let fileWithLoc := relativePath ++ ":" ++ toString loc.start.line ++ ":" ++ toString loc.start.col
  "[" ++ toString (idx + 1) ++ "] " ++ bgColor fileWithLoc ++ " " ++ atPointer ++ "\n\n" ++
    message.message ++ "\n\n" ++
    formatDidYouMean message ++
    getCodeframe loc colorEnabled ++ "\n\n" ++
    formatFrom colorEnabled cwd message.«from» ++
    SEVERITY_NAMES message.severity ++ " was generated by the " ++
    blue colorEnabled message.ruleId ++ " rule.\n\n"

/-- JS `String.prototype.padEnd(n)`: pad with spaces up to length `n`. -/
def padEnd (s : String) (targetLength : Nat) : String :=
  s ++ String.mk (List.replicate (targetLength - s.length) ' ')

def shortFormatMessage (colorEnabled : Bool) (message : NormalizedReportMessage)
    (locationPad ruleIdPad : Nat) : String :=
  let color := COLORS colorEnabled message.severity
  let start := (message.location.headD defaultLocation).start
  "  " ++ padEnd (lineColString start) (locationPad + 2) ++ " " ++
    color (padEnd message.ruleId ruleIdPad) ++ " " ++ message.message

structure FileGroup where
  locationPad : Nat
  ruleIdPad : Nat
  fileMessages : List NormalizedReportMessage
  deriving DecidableEq, Repr

/-- Source: `fileGroups[absoluteRef] || { fileMessages: [], ruleIdPad: 0, locationPad: 0 }`. -/
def emptyFileGroup : FileGroup :=
  { locationPad := 0, ruleIdPad := 0, fileMessages := [] }

/-- Source: `message.location[0].source.absoluteRef`, the grouping key. -/
def primaryAbsoluteRef (message : NormalizedReportMessage) : String :=
  (message.location.headD defaultLocation).source.absoluteRef

/-- One pass of the `groupByFiles` loop body on the group the message belongs to:
push the re-shaped copy `{ ...message, location: message.location.map(getLineColLocation) }`
and bump the two running pad maxima. -/
def addToGroup (g : FileGroup) (message : NormalizedReportMessage) : FileGroup :=
  let mappedMessage := { message with location := message.location.map getLineColLocation }
  { fileMessages := g.fileMessages ++ [mappedMessage]
    ruleIdPad := max message.ruleId.length g.ruleIdPad
    locationPad :=
      max ((mappedMessage.location.map (fun loc => (lineColString loc.start).length)).foldr max 0)
        g.locationPad }

/-- Update the ordered map of groups at `key` (JS object property semantics:
an existing key keeps its position, a new key is appended last). -/
def updateGroups (groups : List (String × FileGroup)) (key : String)
    (message : NormalizedReportMessage) : List (String × FileGroup) :=
  match groups with
  | [] => [(key, addToGroup emptyFileGroup message)]
  | (k, g) :: rest =>
    if k = key then (k, addToGroup g message) :: rest
    else (k, g) :: updateGroups rest key message

def groupByFilesGo (acc : List (String × FileGroup)) :
    List NormalizedReportMessage → List (String × FileGroup)
  | [] => acc
  | message :: rest => groupByFilesGo (updateGroups acc (primaryAbsoluteRef message) message) rest

/-- Function `groupByFiles`: the loop over `messages` filling `fileGroups`, keyed by
`message.location[0].source.absoluteRef`.  JS object string keys enumerate in
insertion order, modelled as an insertion-ordered association list. -/
def groupByFiles (messages : List NormalizedReportMessage) : List (String × FileGroup) :=
  groupByFilesGo [] messages

/-- Insert a message into an already sorted list, before the first element whose
severity key is not smaller — i.e. before equal keys, which together with
`sortBySeverity` folding from the right makes the sort stable. -/
def insertBySeverity (m : NormalizedReportMessage) :
    List NormalizedReportMessage → List NormalizedReportMessage
  | [] => [m]
  | x :: xs =>
    if severityToNumber m.severity ≤ severityToNumber x.severity then m :: x :: xs
    else x :: insertBySeverity m xs

/-- Source: `messages.sort((a, b) => severityToNumber(a.severity) - severityToNumber(b.severity))`.
JS `Array.prototype.sort` is stable (ECMAScript 2019), so the call denotes the
stable sort by the comparator's induced order on severity keys; embedded as a
stable insertion sort. -/
def sortBySeverity : List NormalizedReportMessage → List NormalizedReportMessage
  | [] => []
  | x :: xs => insertBySeverity x (sortBySeverity xs)

/-- Source: `messages.filter((m) => !m.ignored)` (line 54). -/
def filterNotIgnored (messages : List NormalizedReportMessage) : List NormalizedReportMessage :=
  messages.filter (fun m => !m.ignored)

/-- Source: `ignoredMessages = totalMessages - messages.length` (line 55). -/
def ignoredMessagesOf (messages : List NormalizedReportMessage) : Nat :=
  messages.length - (filterNotIgnored messages).length

/-- Lines 57-59: the visible subset — filtered, severity-sorted, truncated. -/
def visibleMessages (messages : List NormalizedReportMessage) (maxMessages : Nat) :
    List NormalizedReportMessage :=
  (sortBySeverity (filterNotIgnored messages)).take maxMessages

structure FormatOptions where
  maxMessages : Option Nat := none
  cwd : Option String := none
  format : Option OutputFormat := none
  color : Option Bool := none

/-- Codeframe mode (lines 64-67): one `process.stderr.write` per visible message. -/
def renderCodeframeBody (getCodeframe : LocationObject → Bool → String) (cwd : String)
    (colorEnabled : Bool) (visible : List NormalizedReportMessage) : List String :=
  visible.enum.map (fun p => fullFormatMessage getCodeframe cwd colorEnabled p.2 p.1 ++ "\n")

/-- Stylish mode (lines 69-81): per file group a header write, one write per
message, and a blank-line write. -/
def renderStylishBody (cwd : String) (colorEnabled : Bool)
    (visible : List NormalizedReportMessage) : List String :=
  (groupByFiles visible).flatMap (fun entry =>
    (blue colorEnabled (pathRelative cwd entry.1) ++ ":\n") ::
      (entry.2.fileMessages.map
        (fun m => shortFormatMessage colorEnabled m entry.2.locationPad entry.2.ruleIdPad ++ "\n") ++
      ["\n"]))

def renderBody (getCodeframe : LocationObject → Bool → String) (cwd : String)
    (colorEnabled : Bool) (format : OutputFormat)
    (visible : List NormalizedReportMessage) : List String :=
  match format with
  | .codeframe => renderCodeframeBody getCodeframe cwd colorEnabled visible
  | .stylish => renderStylishBody cwd colorEnabled visible

/-- The truncation notice write (lines 84-90). -/
def truncationNotice (colorEnabled : Bool) (totalMessages maxMessages : Nat) : String :=
  "< ... " ++ toString (totalMessages - maxMessages) ++ " more messages hidden > " ++
    gray colorEnabled "increase with `--max-messages N`" ++ "\n"

/-- Function `formatMessages`.  `processCwd` models `process.cwd()`; `ambientColorEnabled`
models the global `colorOptions.enabled` on entry.  Returns the ordered list of
`process.stderr.write` arguments and the value of `colorOptions.enabled` after
the call (line 51 assigns it before the `if (!totalMessages) return` check). -/
def formatMessages (getCodeframe : LocationObject → Bool → String) (processCwd : String)
    (ambientColorEnabled : Bool) (messages : List NormalizedReportMessage)
    (opts : FormatOptions) : List String × Bool :=
  let maxMessages := opts.maxMessages.getD 100
  let cwd := opts.cwd.getD processCwd
  let format := opts.format.getD OutputFormat.codeframe
  let color := opts.color.getD ambientColorEnabled
  let totalMessages := messages.length
  let ignoredMessages := ignoredMessagesOf messages
  let visible := visibleMessages messages maxMessages
  if totalMessages = 0 then ([], color)
  else
    (renderBody getCodeframe cwd color format visible ++
      (if totalMessages - ignoredMessages > maxMessages then
        [truncationNotice color totalMessages maxMessages]
      else []),
    color)

/-- Heap of JS arrays of messages: arrays are references into the heap, message
objects are plain values (no line of the unit assigns to a message field; the
only re-shaping, in `groupByFiles`, is an object-spread copy). -/
def heapRead (heap : List (List NormalizedReportMessage)) (r : Nat) :
    List NormalizedReportMessage :=
  (heap[r]?).getD []

def heapWrite (heap : List (List NormalizedReportMessage)) (r : Nat)
    (v : List NormalizedReportMessage) : List (List NormalizedReportMessage) :=
  heap.set r v

def heapAlloc (heap : List (List NormalizedReportMessage)) (v : List NormalizedReportMessage) :
    List (List NormalizedReportMessage) × Nat :=
  (heap ++ [v], heap.length)

/-- Lines 53-59 of `formatMessages` with the JS array aliasing made explicit:
`.filter` allocates a fresh array, `.sort` sorts its receiver **in place** (the
fresh filtered array, not the caller's), `.slice(0, maxMessages)` allocates
again.  The rest of the call only reads.  Returns the final heap and the
reference holding the visible subset. -/
def filterSortSlicePipeline (heap : List (List NormalizedReportMessage)) (messagesRef : Nat)
    (maxMessages : Nat) : List (List NormalizedReportMessage) × Nat :=
  let step1 := heapAlloc heap ((heapRead heap messagesRef).filter (fun m => !m.ignored))
  let heap1 := step1.1
  let filteredRef := step1.2
  let heap2 := heapWrite heap1 filteredRef (sortBySeverity (heapRead heap1 filteredRef))
  let step3 := heapAlloc heap2 ((heapRead heap2 filteredRef).take maxMessages)
  (step3.1, step3.2)

/-- Spec-side description (for claim C8): "iteration order = first-seen order of
files among the visible messages" — the primary files of the messages with the
ones already in `seen` skipped, in order of first appearance. -/
def firstSeenOrder (seen : List String) : List NormalizedReportMessage → List String
  | [] => []
  | m :: rest =>
    if primaryAbsoluteRef m ∈ seen then firstSeenOrder seen rest
    else primaryAbsoluteRef m :: firstSeenOrder (primaryAbsoluteRef m :: seen) rest

/-- Concrete example data used by witnesses. -/
def exLocation : LocationObject :=
  { source := { absoluteRef := "/d/a.yaml" }, pointer := some "#/paths/foo"
    start := { line := 2, col := 3 }, «end» := { line := 2, col := 8 } }

def exLocation2 : LocationObject :=
  { source := { absoluteRef := "/d/b.yaml" }, pointer := none
    start := { line := 7, col := 1 }, «end» := { line := 7, col := 4 } }

def exWarn : NormalizedReportMessage :=
  { severity := .warn, message := "bad foo", ruleId := "no-foo", suggest := []
    location := [exLocation] }

def exError : NormalizedReportMessage :=
  { severity := .error, message := "bad bar", ruleId := "no-bar", suggest := []
    location := [exLocation2] }

def exWarnIgnored : NormalizedReportMessage :=
  { exWarn with ignored := true }

theorem severityToNumber_dichotomy (s : MessageSeverity) :
    severityToNumber s = 1 ∨ severityToNumber s = 2 := by
  cases s <;> simp [severityToNumber]

theorem one_le_severityToNumber (s : MessageSeverity) : 1 ≤ severityToNumber s := by
  cases s <;> simp [severityToNumber]

theorem insertBySeverity_of_error (m : NormalizedReportMessage)
    (l : List NormalizedReportMessage) (hm : severityToNumber m.severity = 1) :
    insertBySeverity m l = m :: l := by
  cases l with
  | nil => rfl
  | cons x xs => simp [insertBySeverity, hm, one_le_severityToNumber]

theorem insertBySeverity_of_warn (m : NormalizedReportMessage)
    (E W : List NormalizedReportMessage) (hm : severityToNumber m.severity = 2)
    (hE : ∀ e ∈ E, severityToNumber e.severity = 1)
    (hW : ∀ w ∈ W, severityToNumber w.severity = 2) :
    insertBySeverity m (E ++ W) = E ++ m :: W := by
  induction E with
  | nil =>
    cases W with
    | nil => rfl
    | cons w ws =>
      have hw := hW w (by simp)
      simp [insertBySeverity, hm, hw]
  | cons e es ih =>
    have he := hE e (by simp)
    have hne : ¬ severityToNumber m.severity ≤ severityToNumber e.severity := by
      rw [hm, he]; omega
    simp only [List.cons_append, insertBySeverity, if_neg hne]
    exact congrArg (List.cons e) (ih (fun a ha => hE a (List.mem_cons_of_mem _ ha)))

theorem sortBySeverity_partition (l : List NormalizedReportMessage) :
    sortBySeverity l =
      l.filter (fun m => severityToNumber m.severity == 1) ++
        l.filter (fun m => !(severityToNumber m.severity == 1)) := by
  induction l with
  | nil => rfl
  | cons m xs ih =>
    rcases severityToNumber_dichotomy m.severity with hm | hm
    · rw [sortBySeverity, ih, insertBySeverity_of_error m _ hm]
      simp [List.filter_cons, hm]
    · rw [sortBySeverity, ih,
        insertBySeverity_of_warn m _ _ hm
          (fun a ha => by
            have := (List.mem_filter.mp ha).2
            simpa using this)
          (fun a ha => by
            have := (List.mem_filter.mp ha).2
            rcases severityToNumber_dichotomy a.severity with h1 | h1
            · rw [h1] at this; simp at this
            · exact h1)]
      simp [List.filter_cons, hm]

theorem insertBySeverity_length (m : NormalizedReportMessage)
    (l : List NormalizedReportMessage) :
    (insertBySeverity m l).length = l.length + 1 := by
  induction l with
  | nil => rfl
  | cons x xs ih =>
    by_cases h : severityToNumber m.severity ≤ severityToNumber x.severity <;>
      simp [insertBySeverity, h, ih]

theorem sortBySeverity_length (l : List NormalizedReportMessage) :
    (sortBySeverity l).length = l.length := by
  induction l with
  | nil => rfl
  | cons x xs ih => simp [sortBySeverity, insertBySeverity_length, ih]

theorem filterNotIgnored_length (messages : List NormalizedReportMessage) :
    (filterNotIgnored messages).length + (messages.filter (fun m => m.ignored)).length =
      messages.length := by
  induction messages with
  | nil => rfl
  | cons m ms ih =>
    cases h : m.ignored <;> simp [filterNotIgnored, List.filter_cons, h] at ih ⊢ <;> omega

theorem pairwise_of_forall_mem (l : List NormalizedReportMessage)
    (R : NormalizedReportMessage → NormalizedReportMessage → Prop)
    (h : ∀ a ∈ l, ∀ b ∈ l, R a b) : l.Pairwise R := by
  induction l with
  | nil => exact List.Pairwise.nil
  | cons x xs ih =>
    refine List.Pairwise.cons (fun b hb => h x (by simp) b (List.mem_cons_of_mem _ hb)) ?_
    exact ih (fun a ha b hb => h a (List.mem_cons_of_mem _ ha) b (List.mem_cons_of_mem _ hb))

theorem severityToNumber_eq_one_iff (s : MessageSeverity) :
    severityToNumber s = 1 ↔ s = MessageSeverity.error := by
  cases s <;> simp [severityToNumber]

theorem sortBySeverity_filter_severity (xs : List NormalizedReportMessage)
    (s : MessageSeverity) :
    (sortBySeverity xs).filter (fun m => m.severity == s) =
      xs.filter (fun m => m.severity == s) := by
  rw [sortBySeverity_partition, List.filter_append]
  cases s
  · have h1 : (xs.filter (fun m => severityToNumber m.severity == 1)).filter
        (fun m => m.severity == MessageSeverity.warn) = [] := by
      rw [List.filter_eq_nil_iff]
      intro a ha
      have := (List.mem_filter.mp ha).2
      rw [show (severityToNumber a.severity == 1) = decide (a.severity = .error) by
        cases a.severity <;> simp [severityToNumber]] at this
      simp at this ⊢
      simp [this]
    have h2 : (xs.filter (fun m => !(severityToNumber m.severity == 1))).filter
        (fun m => m.severity == MessageSeverity.warn) =
        xs.filter (fun m => m.severity == MessageSeverity.warn) := by
      rw [List.filter_filter]
      apply List.filter_congr
      intro a _
      cases h : a.severity <;> simp [severityToNumber, h]
    rw [h1, h2, List.nil_append]
  · have h1 : (xs.filter (fun m => severityToNumber m.severity == 1)).filter
        (fun m => m.severity == MessageSeverity.error) =
        xs.filter (fun m => m.severity == MessageSeverity.error) := by
      rw [List.filter_filter]
      apply List.filter_congr
      intro a _
      cases h : a.severity <;> simp [severityToNumber, h]
    have h2 : (xs.filter (fun m => !(severityToNumber m.severity == 1))).filter
        (fun m => m.severity == MessageSeverity.error) = [] := by
      rw [List.filter_eq_nil_iff]
      intro a ha
      have := (List.mem_filter.mp ha).2
      cases h : a.severity <;> simp [severityToNumber, h] at this ⊢
    rw [h1, h2, List.append_nil]

/-- C1: for every input and every `maxMessages > 0`, `ignoredMessages` counts the
messages with `ignored` true, `ignoredMessages` plus the pre-truncation visible
count equals `totalMessages`, and the final visible subset has size
`min maxMessages (totalMessages - ignoredMessages)`. -/
theorem filter_truncate_counts (messages : List NormalizedReportMessage)
    (maxMessages : Nat) (hmax : 0 < maxMessages) :
    ignoredMessagesOf messages = (messages.filter (fun m => m.ignored)).length ∧
      ignoredMessagesOf messages + (sortBySeverity (filterNotIgnored messages)).length =
        messages.length ∧
      (visibleMessages messages maxMessages).length =
        min maxMessages (messages.length - ignoredMessagesOf messages) := by
  have hflen := filterNotIgnored_length messages
  have hle : (filterNotIgnored messages).length ≤ messages.length :=
    List.length_filter_le _ _
  refine ⟨?_, ?_, ?_⟩
  · unfold ignoredMessagesOf
    omega
  · rw [sortBySeverity_length]
    unfold ignoredMessagesOf
    omega
  · rw [visibleMessages, List.length_take, sortBySeverity_length]
    unfold ignoredMessagesOf
    omega

/-- Witness for C1: two messages, one ignored, `maxMessages = 1`. -/
theorem filter_truncate_counts_witness :
    0 < 1 ∧
      (ignoredMessagesOf [exError, exWarnIgnored] =
          ([exError, exWarnIgnored].filter (fun m => m.ignored)).length ∧
        ignoredMessagesOf [exError, exWarnIgnored] +
            (sortBySeverity (filterNotIgnored [exError, exWarnIgnored])).length =
          [exError, exWarnIgnored].length ∧
        (visibleMessages [exError, exWarnIgnored] 1).length =
          min 1 ([exError, exWarnIgnored].length - ignoredMessagesOf [exError, exWarnIgnored])) :=
  ⟨by decide, filter_truncate_counts [exError, exWarnIgnored] 1 (by decide)⟩

/-- C2: the visible subset is sorted so that every error precedes every warn
(ascending `severityToNumber` key), messages of equal severity keep the relative
order of the post-filter input (the per-severity subsequences of the visible
list are subsequences of the post-filter input), and the sort is the stable
partition errors-then-warns of the post-filter input. -/
theorem visible_sorted_stable (messages : List NormalizedReportMessage) (maxMessages : Nat) :
    (visibleMessages messages maxMessages).Pairwise
      (fun a b => severityToNumber a.severity ≤ severityToNumber b.severity) ∧
      (∀ s : MessageSeverity,
        List.Sublist
          ((visibleMessages messages maxMessages).filter (fun m => m.severity == s))
          ((filterNotIgnored messages).filter (fun m => m.severity == s))) ∧
      sortBySeverity (filterNotIgnored messages) =
        (filterNotIgnored messages).filter (fun m => severityToNumber m.severity == 1) ++
          (filterNotIgnored messages).filter (fun m => !(severityToNumber m.severity == 1)) := by
  refine ⟨?_, ?_, sortBySeverity_partition _⟩
  · have hpw : (sortBySeverity (filterNotIgnored messages)).Pairwise
        (fun a b => severityToNumber a.severity ≤ severityToNumber b.severity) := by
      rw [sortBySeverity_partition, List.pairwise_append]
      refine ⟨?_, ?_, ?_⟩
      · apply pairwise_of_forall_mem
        intro a ha b hb
        have ha3 : severityToNumber a.severity = 1 := by
          simpa using (List.mem_filter.mp ha).2
        rw [ha3]
        exact one_le_severityToNumber _
      · apply pairwise_of_forall_mem
        intro a ha b hb
        have hb3 : ¬ severityToNumber b.severity = 1 := by
          simpa using (List.mem_filter.mp hb).2
        rcases severityToNumber_dichotomy b.severity with h | h
        · exact absurd h hb3
        · rcases severityToNumber_dichotomy a.severity with h2 | h2 <;> omega
      · intro a ha b hb
        have ha3 : severityToNumber a.severity = 1 := by
          simpa using (List.mem_filter.mp ha).2
        rw [ha3]
        exact one_le_severityToNumber _
    exact hpw.sublist (List.take_sublist _ _)
  · intro s
    have h1 : List.Sublist (visibleMessages messages maxMessages)
        (sortBySeverity (filterNotIgnored messages)) := List.take_sublist _ _
    have h2 := h1.filter (fun m => m.severity == s)
    rwa [sortBySeverity_filter_severity] at h2


theorem renderBody_nil (getCodeframe : LocationObject → Bool → String) (cwd : String)
    (colorEnabled : Bool) (format : OutputFormat) :
    renderBody getCodeframe cwd colorEnabled format [] = [] := by
  cases format <;> rfl

/-- C5: when the message list is empty or every message is ignored,
`formatMessages` writes nothing at all: no header, no message line, no blank
line, no truncation notice. -/
theorem no_output_when_empty_or_all_ignored (getCodeframe : LocationObject → Bool → String)
    (processCwd : String) (ambientColorEnabled : Bool)
    (messages : List NormalizedReportMessage) (opts : FormatOptions)
    (h : messages = [] ∨ ∀ m ∈ messages, m.ignored = true) :
    (formatMessages getCodeframe processCwd ambientColorEnabled messages opts).1 = [] := by
  rcases h with h | h
  · subst h; rfl
  · have hfil : filterNotIgnored messages = [] := by
      rw [filterNotIgnored, List.filter_eq_nil_iff]
      intro a ha
      simp [h a ha]
    have hvis : visibleMessages messages (opts.maxMessages.getD 100) = [] := by
      rw [visibleMessages, hfil]
      simp [sortBySeverity]
    have hig : ignoredMessagesOf messages = messages.length := by
      rw [ignoredMessagesOf, hfil]
      rfl
    rw [formatMessages]
    by_cases hlen : messages.length = 0
    · simp [hlen]
    · simp [hlen, hvis, hig, renderBody_nil]

/-- Witness for C5: one message, ignored; no output. -/
theorem no_output_when_empty_or_all_ignored_witness :
    ([exWarnIgnored] = ([] : List NormalizedReportMessage) ∨
        ∀ m ∈ [exWarnIgnored], m.ignored = true) ∧
      (formatMessages (fun _ _ => "") "/d" true [exWarnIgnored] {}).1 = [] :=
  ⟨Or.inr (by decide),
    no_output_when_empty_or_all_ignored (fun _ _ => "") "/d" true [exWarnIgnored] {}
      (Or.inr (by decide))⟩

/-- C6: the "Did you mean" block renders nothing for zero suggestions, the
single-line form for exactly one, and for two or more a bulleted list of the
first `min 5 length` suggestions; whatever stands beyond the fifth suggestion
never affects the output. -/
theorem did_you_mean_policy (message : NormalizedReportMessage) (extra : List String) :
    (message.suggest = [] → formatDidYouMean message = "") ∧
      (∀ s, message.suggest = [s] →
        formatDidYouMean message = "Did you mean: " ++ s ++ " ?\n\n") ∧
      (2 ≤ message.suggest.length →
        formatDidYouMean message =
          "Did you mean:\n  - " ++
            String.intercalate "\n  - " (message.suggest.take MAX_SUGGEST) ++ "\n\n" ∧
          (message.suggest.take MAX_SUGGEST).length = min MAX_SUGGEST message.suggest.length) ∧
      (MAX_SUGGEST ≤ message.suggest.length →
        formatDidYouMean { message with suggest := message.suggest.take MAX_SUGGEST ++ extra } =
          formatDidYouMean message) := by
  refine ⟨?_, ?_, ?_, ?_⟩
  · intro h
    simp [formatDidYouMean, h]
  · intro s h
    simp [formatDidYouMean, h]
  · intro h
    constructor
    · rw [formatDidYouMean, if_neg (by omega), if_neg (by omega)]
    · rw [List.length_take]
  · intro h
    have h5 : MAX_SUGGEST = 5 := rfl
    have htk : (message.suggest.take MAX_SUGGEST).length = MAX_SUGGEST := by
      rw [List.length_take]
      omega
    have hcut : (message.suggest.take MAX_SUGGEST ++ extra).take MAX_SUGGEST =
        message.suggest.take MAX_SUGGEST := List.take_left' htk
    rw [formatDidYouMean, formatDidYouMean]
    simp only [List.length_append, htk]
    rw [if_neg (by omega), if_neg (by omega), if_neg (by omega), if_neg (by omega)]
    simp only [List.take_append_eq_append_take, htk]
    rw [Nat.sub_self, List.take_zero, List.append_nil, List.take_take, Nat.min_self]

/-- C10: the process-wide color toggle is assigned the resolved color option on
every call — also when the call produces no output — so after the call it
equals the explicit option if given and the previous ambient value otherwise. -/
theorem color_toggle_always_set (getCodeframe : LocationObject → Bool → String)
    (processCwd : String) (ambientColorEnabled : Bool)
    (messages : List NormalizedReportMessage) (opts : FormatOptions) :
    (formatMessages getCodeframe processCwd ambientColorEnabled messages opts).2 =
      opts.color.getD ambientColorEnabled := by
  rw [formatMessages]
  by_cases h : messages.length = 0 <;> simp [h]

/-- C3: the truncation notice write happens exactly when
`totalMessages - ignoredMessages > maxMessages`, once, after every rendering
write, and it reports `totalMessages - maxMessages` (the unfiltered total minus
the cap) followed by the muted hint. -/
theorem truncation_notice_iff (getCodeframe : LocationObject → Bool → String)
    (processCwd : String) (ambientColorEnabled : Bool)
    (messages : List NormalizedReportMessage) (opts : FormatOptions) :
    (messages.length - ignoredMessagesOf messages > opts.maxMessages.getD 100 →
      (formatMessages getCodeframe processCwd ambientColorEnabled messages opts).1 =
        renderBody getCodeframe (opts.cwd.getD processCwd) (opts.color.getD ambientColorEnabled)
            (opts.format.getD OutputFormat.codeframe)
            (visibleMessages messages (opts.maxMessages.getD 100)) ++
          ["< ... " ++ toString (messages.length - opts.maxMessages.getD 100) ++
            " more messages hidden > " ++
            gray (opts.color.getD ambientColorEnabled) "increase with `--max-messages N`" ++
            "\n"]) ∧
    (¬ messages.length - ignoredMessagesOf messages > opts.maxMessages.getD 100 →
      (formatMessages getCodeframe processCwd ambientColorEnabled messages opts).1 =
        renderBody getCodeframe (opts.cwd.getD processCwd) (opts.color.getD ambientColorEnabled)
          (opts.format.getD OutputFormat.codeframe)
          (visibleMessages messages (opts.maxMessages.getD 100))) := by
  constructor
  · intro h
    have hlen : ¬ messages.length = 0 := by
      intro h0
      rw [h0] at h
      omega
    have hne : messages ≠ [] := fun hnil => hlen (by simp [hnil])
    rw [formatMessages]
    simp [hne, h, truncationNotice]
  · intro h
    by_cases hlen : messages.length = 0
    · have hnil : messages = [] := List.length_eq_zero.mp hlen
      subst hnil
      simp [formatMessages, visibleMessages, filterNotIgnored, sortBySeverity, renderBody_nil]
    · have hne : messages ≠ [] := fun hnil => hlen (by simp [hnil])
      rw [formatMessages]
      simp [hne, h]

/-- C4 counterexample: in codeframe mode, a message whose `location` list has a
second entry but whose `from` field is absent renders no referenced-from
context at all — in particular not the one of `location[1]`, which would be
non-empty.  The code renders `message.from` only (`// TODO: support multiple
locations`). -/
theorem secondary_location_not_rendered_cex :
    ([exLocation2, exLocation].drop 1 = [exLocation] ∧
        formatFrom false "/d" (some exLocation) ≠ "") ∧
      ¬ List.IsInfix (formatFrom false "/d" (some exLocation)).toList
        (fullFormatMessage (fun _ _ => "") "/d" false
          { severity := .error, message := "bad bar", ruleId := "no-bar", suggest := []
            location := [exLocation2, exLocation], «from» := none, ignored := false }
          0).toList := by
  refine ⟨⟨rfl, ?_⟩, ?_⟩
  · decide
  · decide

/-- C4 amended: in codeframe mode the entries of the location list beyond the
first are never rendered (the output only depends on the head), and the
"referenced from" context is rendered from the message's `from` field — empty
when `from` is absent, `formatFrom` of it otherwise, placed between the
codeframe excerpt and the attribution line. -/
theorem referenced_from_uses_from_field (getCodeframe : LocationObject → Bool → String)
    (cwd : String) (colorEnabled : Bool) (message : NormalizedReportMessage) (idx : Nat)
    (l : LocationObject) (tail1 tail2 : List LocationObject) :
    (fullFormatMessage getCodeframe cwd colorEnabled { message with location := l :: tail1 } idx =
        fullFormatMessage getCodeframe cwd colorEnabled { message with location := l :: tail2 } idx) ∧
      (∃ pre post, fullFormatMessage getCodeframe cwd colorEnabled message idx =
        pre ++ formatFrom colorEnabled cwd message.«from» ++ post) ∧
      formatFrom colorEnabled cwd none = "" := by
  refine ⟨rfl, ?_, rfl⟩
  refine ⟨"[" ++ toString (idx + 1) ++ "] " ++
      BG_COLORS colorEnabled message.severity
        (pathRelative cwd (message.location.headD defaultLocation).source.absoluteRef ++ ":" ++
          toString (getLineColLocation (message.location.headD defaultLocation)).start.line ++
          ":" ++
          toString (getLineColLocation (message.location.headD defaultLocation)).start.col) ++
      " " ++
      (match (message.location.headD defaultLocation).pointer with
        | some p => if p = "" then "" else gray colorEnabled ("at " ++ p)
        | none => "") ++ "\n\n" ++
      message.message ++ "\n\n" ++
      formatDidYouMean message ++
      getCodeframe (getLineColLocation (message.location.headD defaultLocation)) colorEnabled ++
      "\n\n",
    SEVERITY_NAMES message.severity ++ " was generated by the " ++
      blue colorEnabled message.ruleId ++ " rule.\n\n", ?_⟩
  simp only [fullFormatMessage, String.append_assoc]

/-- C9: `formatMessages` never mutates the caller's array: `filter` allocates a
fresh array and the in-place `sort` runs on that fresh array only, so after the
filter/sort/slice pipeline the caller's reference still holds the original
contents, while the freshly returned reference holds the visible subset.
Message objects are plain values in this model, matching the code, which never
assigns to a message field and re-shapes only through object-spread copies. -/
theorem caller_array_unchanged (heap : List (List NormalizedReportMessage))
    (messagesRef maxMessages : Nat) (h : messagesRef < heap.length) :
    heapRead (filterSortSlicePipeline heap messagesRef maxMessages).1 messagesRef =
        heapRead heap messagesRef ∧
      heapRead (filterSortSlicePipeline heap messagesRef maxMessages).1
          (filterSortSlicePipeline heap messagesRef maxMessages).2 =
        visibleMessages (heapRead heap messagesRef) maxMessages := by
  have hpipe : filterSortSlicePipeline heap messagesRef maxMessages =
      ((heap ++ [sortBySeverity ((heapRead heap messagesRef).filter (fun m => !m.ignored))]) ++
          [(sortBySeverity
              ((heapRead heap messagesRef).filter (fun m => !m.ignored))).take maxMessages],
        heap.length + 1) := by
    rw [filterSortSlicePipeline]
    simp only [heapAlloc, heapWrite, heapRead]
    rw [List.getElem?_concat_length]
    simp only [Option.getD_some]
    rw [List.set_append_right _ _ (Nat.le_refl _), Nat.sub_self]
    simp only [List.set]
    rw [List.getElem?_concat_length]
    simp only [Option.getD_some, List.length_append, List.length_singleton]
  rw [hpipe]
  constructor
  · have h1 : messagesRef <
        (heap ++ [sortBySeverity
          ((heapRead heap messagesRef).filter (fun m => !m.ignored))]).length := by
      rw [List.length_append]
      omega
    show (((heap ++ _) ++ _)[messagesRef]?).getD [] = heapRead heap messagesRef
    rw [List.getElem?_append, if_pos h1, List.getElem?_append, if_pos h]
    rfl
  · have hlen2 : heap.length + 1 =
        (heap ++ [sortBySeverity
          ((heapRead heap messagesRef).filter (fun m => !m.ignored))]).length := by
      rw [List.length_append]
      rfl
    show ((((heap ++ _) ++ _))[heap.length + 1]?).getD [] = _
    rw [hlen2, List.getElem?_concat_length]
    rfl

/-- Witness for C9: a one-array heap holding two messages, `maxMessages = 1`. -/
theorem caller_array_unchanged_witness :
    0 < [[exError, exWarnIgnored]].length ∧
      (heapRead (filterSortSlicePipeline [[exError, exWarnIgnored]] 0 1).1 0 =
          heapRead [[exError, exWarnIgnored]] 0 ∧
        heapRead (filterSortSlicePipeline [[exError, exWarnIgnored]] 0 1).1
            (filterSortSlicePipeline [[exError, exWarnIgnored]] 0 1).2 =
          visibleMessages (heapRead [[exError, exWarnIgnored]] 0) 1) :=
  ⟨by decide, caller_array_unchanged [[exError, exWarnIgnored]] 0 1 (by decide)⟩

theorem updateGroups_lookup_self (groups : List (String × FileGroup)) (key : String)
    (message : NormalizedReportMessage) :
    List.lookup key (updateGroups groups key message) =
      some (addToGroup ((List.lookup key groups).getD emptyFileGroup) message) := by
  induction groups with
  | nil => simp [updateGroups, List.lookup]
  | cons kg rest ih =>
    obtain ⟨k, g⟩ := kg
    by_cases h : k = key
    · subst h
      simp [updateGroups, List.lookup]
    · have h2 : (key == k) = false := by
        rw [beq_eq_false_iff_ne]
        exact fun e => h e.symm
      simp only [updateGroups, if_neg h, List.lookup]
      rw [h2]
      exact ih

theorem updateGroups_lookup_ne (groups : List (String × FileGroup)) (key : String)
    (message : NormalizedReportMessage) (k : String) (h : k ≠ key) :
    List.lookup k (updateGroups groups key message) = List.lookup k groups := by
  induction groups with
  | nil =>
    have hb : (k == key) = false := beq_eq_false_iff_ne.mpr h
    simp only [updateGroups, List.lookup]
    rw [hb]
  | cons kg rest ih =>
    obtain ⟨k2, g⟩ := kg
    by_cases h2 : k2 = key
    · subst h2
      have h3 : (k == k2) = false := beq_eq_false_iff_ne.mpr h
      simp only [updateGroups, if_pos rfl, List.lookup]
      rw [h3]
    · simp only [updateGroups, if_neg h2, List.lookup]
      cases h4 : k == k2
      · exact ih
      · rfl

theorem groupByFilesGo_lookup (messages : List NormalizedReportMessage) :
    ∀ (acc : List (String × FileGroup)) (k : String),
      List.lookup k (groupByFilesGo acc messages) =
        (if List.lookup k acc = none ∧
            messages.filter (fun m => primaryAbsoluteRef m == k) = [] then
          none
        else
          some ((messages.filter (fun m => primaryAbsoluteRef m == k)).foldl addToGroup
            ((List.lookup k acc).getD emptyFileGroup))) := by
  induction messages with
  | nil =>
    intro acc k
    cases hl : List.lookup k acc <;> simp [groupByFilesGo, hl]
  | cons m rest ih =>
    intro acc k
    by_cases hk : primaryAbsoluteRef m = k
    · have hbeq : (primaryAbsoluteRef m == k) = true := by simpa using hk
      rw [groupByFilesGo, ih, List.filter_cons, if_pos hbeq]
      subst hk
      rw [updateGroups_lookup_self]
      simp [List.foldl_cons]
    · have hbeq : ¬ (primaryAbsoluteRef m == k) = true := by simpa using hk
      rw [groupByFilesGo, ih, List.filter_cons, if_neg hbeq,
        updateGroups_lookup_ne _ _ _ _ (fun e => hk e.symm)]

theorem updateGroups_keys_mem (groups : List (String × FileGroup)) (key : String)
    (message : NormalizedReportMessage) (h : key ∈ groups.map Prod.fst) :
    (updateGroups groups key message).map Prod.fst = groups.map Prod.fst := by
  induction groups with
  | nil => simp at h
  | cons kg rest ih =>
    obtain ⟨k, g⟩ := kg
    by_cases h2 : k = key
    · subst h2
      simp [updateGroups]
    · simp only [List.map_cons] at h
      rcases List.mem_cons.mp h with h3 | h3
    
      · exact absurd h3.symm h2
      · simp only [updateGroups, if_neg h2, List.map_cons]
        rw [ih h3]

theorem updateGroups_keys_new (groups : List (String × FileGroup)) (key : String)
    (message : NormalizedReportMessage) (h : ¬ key ∈ groups.map Prod.fst) :
    (updateGroups groups key message).map Prod.fst = groups.map Prod.fst ++ [key] := by
  induction groups with
  | nil => simp [updateGroups]
  | cons kg rest ih =>
    obtain ⟨k, g⟩ := kg
    by_cases h2 : k = key
    · subst h2
      exact absurd (by simp) h
    · simp only [updateGroups, if_neg h2, List.map_cons, List.cons_append]
      rw [ih (fun h3 => h (by simp [h3]))]

theorem firstSeenOrder_congr (messages : List NormalizedReportMessage) :
    ∀ seen1 seen2 : List String, (∀ s, s ∈ seen1 ↔ s ∈ seen2) →
      firstSeenOrder seen1 messages = firstSeenOrder seen2 messages := by
  induction messages with
  | nil => intro seen1 seen2 _; rfl
  | cons m rest ih =>
    intro seen1 seen2 h
    by_cases hm : primaryAbsoluteRef m ∈ seen1
    · rw [firstSeenOrder, if_pos hm, firstSeenOrder, if_pos ((h _).mp hm), ih _ _ h]
    · rw [firstSeenOrder, if_neg hm, firstSeenOrder, if_neg (fun h2 => hm ((h _).mpr h2))]
      have h3 : ∀ s, s ∈ primaryAbsoluteRef m :: seen1 ↔ s ∈ primaryAbsoluteRef m :: seen2 := by
        intro s
        simp [h s]
      rw [ih _ _ h3]

theorem groupByFilesGo_keys (messages : List NormalizedReportMessage) :
    ∀ acc : List (String × FileGroup),
      (groupByFilesGo acc messages).map Prod.fst =
        acc.map Prod.fst ++ firstSeenOrder (acc.map Prod.fst) messages := by
  induction messages with
  | nil => intro acc; simp [groupByFilesGo, firstSeenOrder]
  | cons m rest ih =>
    intro acc
    by_cases hm : primaryAbsoluteRef m ∈ acc.map Prod.fst
    · rw [groupByFilesGo, ih, updateGroups_keys_mem _ _ _ hm, firstSeenOrder, if_pos hm]
    · rw [groupByFilesGo, ih, updateGroups_keys_new _ _ _ hm, firstSeenOrder, if_neg hm]
      rw [firstSeenOrder_congr rest (acc.map Prod.fst ++ [primaryAbsoluteRef m])
        (primaryAbsoluteRef m :: acc.map Prod.fst) (by intro s; simp; tauto)]
      simp

theorem foldl_addToGroup_fileMessages (ms : List NormalizedReportMessage) :
    ∀ g : FileGroup,
      (ms.foldl addToGroup g).fileMessages =
        g.fileMessages ++
          ms.map (fun m => { m with location := m.location.map getLineColLocation }) := by
  induction ms with
  | nil => intro g; simp
  | cons m rest ih =>
    intro g
    rw [List.foldl_cons, ih, List.map_cons]
    simp [addToGroup]

theorem foldl_addToGroup_ruleIdPad (ms : List NormalizedReportMessage) :
    ∀ g : FileGroup,
      (ms.foldl addToGroup g).ruleIdPad =
        max g.ruleIdPad ((ms.map (fun m => m.ruleId.length)).foldr max 0) := by
  induction ms with
  | nil => intro g; simp
  | cons m rest ih =>
    intro g
    rw [List.foldl_cons, ih, List.map_cons, List.foldr_cons]
    simp [addToGroup]
    omega

theorem foldl_addToGroup_locationPad (ms : List NormalizedReportMessage) :
    ∀ g : FileGroup,
      (ms.foldl addToGroup g).locationPad =
        max g.locationPad
          ((ms.map (fun m =>
            (m.location.map (fun loc => (lineColString loc.start).length)).foldr max 0)).foldr
            max 0) := by
  induction ms with
  | nil => intro g; simp
  | cons m rest ih =>
    intro g
    rw [List.foldl_cons, ih, List.map_cons, List.foldr_cons]
    simp [addToGroup, List.map_map, Function.comp_def, getLineColLocation]
    omega

/-- C7: for every group produced by `groupByFiles`, `ruleIdPad` is the maximum
`ruleId` string length over the group's messages, and `locationPad` is the
maximum rendered `line:col` string length taken over all locations (not just
the primary one) of the group's messages. -/
theorem groupByFiles_pads (messages : List NormalizedReportMessage)
    (h : ∀ m ∈ messages, m.location ≠ []) (key : String) (g : FileGroup)
    (hg : List.lookup key (groupByFiles messages) = some g) :
    g.ruleIdPad = (g.fileMessages.map (fun m => m.ruleId.length)).foldr max 0 ∧
      g.locationPad =
        (g.fileMessages.map (fun m =>
          (m.location.map (fun loc => (lineColString loc.start).length)).foldr max 0)).foldr
          max 0 := by
  rw [groupByFiles, groupByFilesGo_lookup] at hg
  by_cases hfil : messages.filter (fun m => primaryAbsoluteRef m == key) = []
  · rw [if_pos ⟨rfl, hfil⟩] at hg
    exact absurd hg (by simp)
  · rw [if_neg (fun hc => hfil hc.2)] at hg
    have hgeq := Option.some.inj hg
    rw [← hgeq, foldl_addToGroup_ruleIdPad, foldl_addToGroup_locationPad,
      foldl_addToGroup_fileMessages]
    constructor
    · simp [emptyFileGroup, List.map_map, Function.comp_def]
    · simp [emptyFileGroup, List.map_map, Function.comp_def, getLineColLocation]

/-- Witness for C7 at a concrete input: two messages in two files. -/
theorem groupByFiles_pads_witness :
    (∀ m ∈ [exError, exWarn], m.location ≠ []) ∧
      List.lookup "/d/b.yaml" (groupByFiles [exError, exWarn]) =
        some { locationPad := 3, ruleIdPad := 6, fileMessages := [exError] } ∧
      (({ locationPad := 3, ruleIdPad := 6, fileMessages := [exError] } : FileGroup).ruleIdPad =
          (({ locationPad := 3, ruleIdPad := 6,
              fileMessages := [exError] } : FileGroup).fileMessages.map
            (fun m => m.ruleId.length)).foldr max 0 ∧
        ({ locationPad := 3, ruleIdPad := 6, fileMessages := [exError] } : FileGroup).locationPad =
          (({ locationPad := 3, ruleIdPad := 6,
              fileMessages := [exError] } : FileGroup).fileMessages.map
            (fun m =>
              (m.location.map (fun loc => (lineColString loc.start).length)).foldr
                max 0)).foldr max 0) :=
  ⟨by decide, by decide,
    groupByFiles_pads [exError, exWarn] (by decide) "/d/b.yaml"
      { locationPad := 3, ruleIdPad := 6, fileMessages := [exError] } (by decide)⟩

/-- C8: `groupByFiles` yields its groups keyed by the primary location's
`source.absoluteRef` in first-seen order of the files; each group holds exactly
the messages whose primary file is its key, in input order (as re-shaped
copies); keys without a matching message have no group. -/
theorem groupByFiles_partition (messages : List NormalizedReportMessage)
    (h : ∀ m ∈ messages, m.location ≠ []) :
    (groupByFiles messages).map Prod.fst = firstSeenOrder [] messages ∧
      (∀ key g, List.lookup key (groupByFiles messages) = some g →
        g.fileMessages = (messages.filter (fun m => primaryAbsoluteRef m == key)).map
          (fun m => { m with location := m.location.map getLineColLocation })) ∧
      (∀ key, List.lookup key (groupByFiles messages) = none →
        messages.filter (fun m => primaryAbsoluteRef m == key) = []) := by
  refine ⟨?_, ?_, ?_⟩
  · have hkeys := groupByFilesGo_keys messages []
    simpa [groupByFiles] using hkeys
  · intro key g hg
    rw [groupByFiles, groupByFilesGo_lookup] at hg
    by_cases hfil : messages.filter (fun m => primaryAbsoluteRef m == key) = []
    · rw [if_pos ⟨rfl, hfil⟩] at hg
      exact absurd hg (by simp)
    · rw [if_neg (fun hc => hfil hc.2)] at hg
      have hgeq := Option.some.inj hg
      rw [← hgeq, foldl_addToGroup_fileMessages]
      simp [emptyFileGroup]
  · intro key hk
    rw [groupByFiles, groupByFilesGo_lookup] at hk
    by_cases hfil : messages.filter (fun m => primaryAbsoluteRef m == key) = []
    · exact hfil
    · rw [if_neg (fun hc => hfil hc.2)] at hk
      exact absurd hk (by simp)

/-- Witness for C8 at a concrete input: three messages over two files with a
repeated file. -/
theorem groupByFiles_partition_witness :
    (∀ m ∈ [exError, exWarn, exError], m.location ≠ []) ∧
      ((groupByFiles [exError, exWarn, exError]).map Prod.fst =
          firstSeenOrder [] [exError, exWarn, exError] ∧
        (∀ key g, List.lookup key (groupByFiles [exError, exWarn, exError]) = some g →
          g.fileMessages =
            ([exError, exWarn, exError].filter (fun m => primaryAbsoluteRef m == key)).map
              (fun m => { m with location := m.location.map getLineColLocation })) ∧
        (∀ key, List.lookup key (groupByFiles [exError, exWarn, exError]) = none →
          [exError, exWarn, exError].filter (fun m => primaryAbsoluteRef m == key) = [])) :=
  ⟨by decide, groupByFiles_partition [exError, exWarn, exError] (by decide)⟩
